import Mathlib

/-!
# Bid Normalization & Collection Pipeline — verification

Shallow embedding of the G2B bid-collection pipeline of
`BidIntelligence/G2B_FINAL_SOLUTION.py` (the repository's primary script):
XML item parsing (`get_text`, `parse_xml_response`), the negotiated-contract
filter, per-category collection with failure isolation (`collect_all_bids`),
first-seen deduplication (`drop_duplicates(subset=['공고번호'], keep='first')`),
and the demo-data fallback of `main` (`create_demo_data`).

Raw XML items are modelled as association lists from child-tag name to the
optional text of that child (`ElementTree` elements may exist with `text`
equal to `None`).  Console statistics that the script prints (the per-batch
excluded count, the per-category failure log) are modelled as extra
components of the corresponding functions' results, since they are the
observable outputs of those code paths.
-/

/-- Prefix test: `listTakesPre p l` is true when `p` is a prefix of `l`
(character-list model of Python string matching). -/
def listTakesPre : List Char → List Char → Bool
  | [], _ => true
  | _ :: _, [] => false
  | p :: ps, q :: qs => p == q && listTakesPre ps qs

/-- Sublist test: `listHasSub p l` is true when `p` occurs as a contiguous sublist of `l`. -/
def listHasSub (p : List Char) : List Char → Bool
  | [] => p.isEmpty
  | c :: rest => listTakesPre p (c :: rest) || listHasSub p rest

/-- Python's `pat in s` substring test on strings. -/
def strContains (s pat : String) : Bool :=
  listHasSub pat.data s.data

/-- Python's `s.startswith(pat)` / id-prefix test on strings. -/
def strStarts (s pat : String) : Bool :=
  listTakesPre pat.data s.data

/-- Drop leading whitespace characters from a character list. -/
def dropLeadingWs : List Char → List Char
  | [] => []
  | c :: rest => if c.isWhitespace then dropLeadingWs rest else c :: rest

/-- Python's `s.strip()`: remove leading and trailing whitespace (modelled
over the ASCII whitespace characters; the repository's data uses no exotic
Unicode whitespace). -/
def strStrip (s : String) : String :=
  ⟨(dropLeadingWs (dropLeadingWs s.data).reverse).reverse⟩

/-- One `<item>` element of the XML response: association list from child tag
name to the child's optional text (`elem.text` may be `None`). -/
structure XmlItem where
  fields : List (String × Option String)
deriving DecidableEq

/-- Lookup modelling `item.find(tag)` followed by reading `.text`: `none` when no child with
that tag exists, `some t` when the first such child has text `t`. -/
def findField (item : XmlItem) (tag : String) : Option (Option String) :=
  (item.fields.find? (fun p => p.1 == tag)).map (fun p => p.2)

/-- Model of `get_text` inside `parse_xml_response` (G2B_FINAL_SOLUTION.py lines 148-150):
`elem.text.strip() if elem is not None and elem.text else '정보없음'`. -/
def get_text (item : XmlItem) (tag : String) : String :=
  match findField item tag with
  | some (some t) => if t = "" then "정보없음" else strStrip t
  | _ => "정보없음"

/-- The canonical bid record built by `parse_xml_response` (the `bid_info`
dict, lines 162-188).  Field names follow the spec's CanonicalBid schema;
each doc line of `makeBid` states which source key the field holds
(`공고명`, `공고번호`, ...). -/
structure CanonicalBid where
  title : String
  announcementId : String
  announcingAgency : String
  demandingDepartment : String
  contractMethod : String
  announcementDate : String
  deadlineDateTime : String
  openingDateTime : String
  estimatedPrice : String
  budgetAmount : String
  minimumBidRate : String
  qualification : String
  regionRestriction : String
  industryRestriction : String
  bidMethod : String
  announcementType : String
  isInternational : String
  isReAnnouncement : String
  contactName : String
  contactPhone : String
  contactEmail : String
  referenceNumber : String
  detailLinkUrl : String
  collectedAt : String
  collectionMethod : String
  sourceCategory : String
deriving DecidableEq

/-- The `bid_info` dict built for one item (lines 162-188).  `now` stands for
`datetime.now().strftime(...)`.  `sourceCategory` (`입찰분류`) is not set by
`parse_xml_response`; `collect_all_bids` adds it afterwards. -/
def makeBid (now : String) (item : XmlItem) : CanonicalBid :=
  let bidNumber := get_text item "bidNtceNo"
  { title := get_text item "bidNtceNm"
    announcementId := bidNumber
    announcingAgency := get_text item "ntceInsttNm"
    demandingDepartment := get_text item "dminsttNm"
    contractMethod := get_text item "cntrctCnclsMthdNm"
    announcementDate := get_text item "bidNtceDt"
    deadlineDateTime := get_text item "bidClseDt"
    openingDateTime := get_text item "opengDt"
    estimatedPrice := get_text item "presmptPrc"
    budgetAmount := get_text item "assmtUprc"
    minimumBidRate := get_text item "scsbdAmt"
    qualification := get_text item "prtcptLmtYn"
    regionRestriction := get_text item "rgstTyNm"
    industryRestriction := get_text item "indstryClNm"
    bidMethod := get_text item "bidMethdNm"
    announcementType := get_text item "ntceKindNm"
    isInternational := get_text item "intrbidYn"
    isReAnnouncement := get_text item "reNtceYn"
    contactName := get_text item "ntceInsttOfclNm"
    contactPhone := get_text item "ntceInsttOfclTelNo"
    contactEmail := get_text item "ntceInsttOfclEmailAdrs"
    referenceNumber := get_text item "refNo"
    detailLinkUrl := "https://www.g2b.go.kr/pt/menu/selectSubFrame.do?bidNtceNo=" ++ bidNumber
    collectedAt := now
    collectionMethod := "공공데이터 API"
    sourceCategory := "" }

/-- The per-item loop of `parse_xml_response` (lines 145-194): extract the
contract method, drop the item when it contains `수의계약` (incrementing the
excluded counter), otherwise emit the bid record.  Returns the collected
records in input order together with the excluded count. -/
def processItems (now : String) : List XmlItem → List CanonicalBid × Nat
  | [] => ([], 0)
  | item :: rest =>
    let cm := get_text item "cntrctCnclsMthdNm"
    let r := processItems now rest
    if strContains cm "수의계약" then (r.1, r.2 + 1) else (makeBid now item :: r.1, r.2)

/-- One XML response body: the optional `<resultCode>` element (with its
optional text) and the `<item>` list. -/
structure XmlResponse where
  resultCode : Option (Option String)
  items : List XmlItem
deriving DecidableEq

/-- Model of `parse_xml_response` (lines 117-203): when a `resultCode` element is
present with text other than `00` the response is a declared API error and
yields no records; otherwise every item passes through the filter loop.
The second component is the printed `excluded_count` batch statistic. -/
def parse_xml_response (now : String) (resp : XmlResponse) : List CanonicalBid × Nat :=
  match resp.resultCode with
  | some txt => if txt = some "00" then processItems now resp.items else ([], 0)
  | none => processItems now resp.items

/-- Outcome of one category's Source-Adapter call.  `failure` covers every
recoverable per-category error of `call_g2b_api` / `collect_bids_by_category`
(HTTP status ≠ 200, network exception, XML parse error, unknown category) and
any exception caught by the `except` of the `collect_all_bids` loop; `success`
carries the parsed XML response body. -/
inductive AdapterOutcome where
  | failure
  | success (resp : XmlResponse)
deriving DecidableEq

/-- Model of `collect_bids_by_category` (lines 205-241) reduced to its data path:
a failed call yields no records, a successful one is parsed.  The excluded
count is the batch statistic printed by `parse_xml_response`. -/
def collect_bids_by_category (now : String) (o : AdapterOutcome) : List CanonicalBid × Nat :=
  match o with
  | AdapterOutcome.failure => ([], 0)
  | AdapterOutcome.success resp => parse_xml_response now resp

/-- The category loop of `collect_all_bids` (lines 251-265): for each
`(categoryName, outcome)` in order, a failed category is logged (second
component) and skipped, a successful one contributes its parsed records
tagged with the category name (`bid['입찰분류'] = category_names[category]`). -/
def collectCategories (now : String) : List (String × AdapterOutcome) → List CanonicalBid × List String
  | [] => ([], [])
  | (name, o) :: rest =>
    let r := collectCategories now rest
    match o with
    | AdapterOutcome.failure => (r.1, name :: r.2)
    | AdapterOutcome.success resp =>
      ((parse_xml_response now resp).1.map (fun b => { b with sourceCategory := name }) ++ r.1, r.2)

/-- Kernel of `df.drop_duplicates(subset=['공고번호'], keep='first')` (line 276):
keep a record when its `announcementId` has not been seen yet, in row order. -/
def dedupeGo (seen : List String) : List CanonicalBid → List CanonicalBid
  | [] => []
  | b :: rest =>
    if seen.contains b.announcementId then dedupeGo seen rest
    else b :: dedupeGo (b.announcementId :: seen) rest

/-- First-seen deduplication keyed by `announcementId`. -/
def deduplicate (l : List CanonicalBid) : List CanonicalBid :=
  dedupeGo [] l

/-- The Deduplicator on an ordered list of per-category batches: the batches
are concatenated in order (as the `all_bids.extend(bids)` loop does) and
deduplicated keeping the first occurrence of each `announcementId`. -/
def deduplicateBatches (batches : List (List CanonicalBid)) : List CanonicalBid :=
  deduplicate batches.flatten

/-- Model of `collect_all_bids` (lines 243-284): run every category in the fixed
order, concatenate the surviving records, and drop duplicate announcement
numbers keeping the first.  The second component is the log of failed
categories. -/
def collect_all_bids (now : String) (cats : List (String × AdapterOutcome)) :
    List CanonicalBid × List String :=
  let r := collectCategories now cats
  (deduplicate r.1, r.2)

/-- The fixed category order of `collect_all_bids` (lines 248-249) paired
with this run's adapter outcomes: goods (`물품`), service (`용역`),
construction (`공사`), foreign (`외자`). -/
def categoryPairs (og os oc of : AdapterOutcome) : List (String × AdapterOutcome) :=
  [("물품", og), ("용역", os), ("공사", oc), ("외자", of)]

/-- Model of `create_demo_data` (lines 286-350): the fixed two-record demo dataset,
returned when the API path yields nothing.  `now` stands for
`datetime.now().strftime('%Y-%m-%d %H:%M:%S')`. -/
def create_demo_data (now : String) : List CanonicalBid :=
  [{ title := "[데모] 인공지능 기반 업무시스템 구축 용역"
     announcementId := "DEMO-2025-0001"
     announcingAgency := "서울특별시"
     demandingDepartment := "서울특별시 정보통신담당관"
     contractMethod := "일반경쟁입찰"
     announcementDate := "2025-07-01 09:00:00"
     deadlineDateTime := "2025-07-15 18:00:00"
     openingDateTime := "2025-07-16 14:00:00"
     estimatedPrice := "500,000,000"
     budgetAmount := "450,000,000"
     minimumBidRate := "87.745%"
     qualification := "일반"
     regionRestriction := "서울특별시"
     industryRestriction := "정보통신업"
     bidMethod := "전자입찰"
     announcementType := "일반"
     isInternational := "N"
     isReAnnouncement := "N"
     contactName := "김담당"
     contactPhone := "02-1234-5678"
     contactEmail := "demo@seoul.go.kr"
     referenceNumber := "REF-2025-001"
     detailLinkUrl := "https://www.g2b.go.kr/"
     collectedAt := now
     collectionMethod := "데모 데이터"
     sourceCategory := "용역" },
   { title := "[데모] 청사 보안시스템 유지보수"
     announcementId := "DEMO-2025-0002"
     announcingAgency := "경기도"
     demandingDepartment := "경기도 총무과"
     contractMethod := "제한경쟁입찰"
     announcementDate := "2025-07-02 10:00:00"
     deadlineDateTime := "2025-07-16 17:00:00"
     openingDateTime := "2025-07-17 10:00:00"
     estimatedPrice := "120,000,000"
     budgetAmount := "110,000,000"
     minimumBidRate := "85.000%"
     qualification := "중소기업"
     regionRestriction := "경기도"
     industryRestriction := "보안업"
     bidMethod := "전자입찰"
     announcementType := "일반"
     isInternational := "N"
     isReAnnouncement := "N"
     contactName := "이담당"
     contactPhone := "031-1234-5678"
     contactEmail := "demo@gg.go.kr"
     referenceNumber := "REF-2025-002"
     detailLinkUrl := "https://www.g2b.go.kr/"
     collectedAt := now
     collectionMethod := "데모 데이터"
     sourceCategory := "용역" }]

/-- The `main` data path with an API key present (lines 441-451): collect all
categories; when the aggregate result is empty fall back to the demo
dataset. -/
def mainOutput (now : String) (og os oc of : AdapterOutcome) : List CanonicalBid :=
  let r := (collect_all_bids now (categoryPairs og os oc of)).1
  if r.isEmpty then create_demo_data now else r

/-- Predicate `wsOnlyId item` that holds when the item's `bidNtceNo` child has text that is
non-empty but consists only of whitespace — the one shape of input on which
`get_text` produces the empty string instead of a non-empty id or the
placeholder. -/
def wsOnlyId (item : XmlItem) : Bool :=
  match findField item "bidNtceNo" with
  | some (some t) => !(t == "") && (strStrip t == "")
  | _ => false

/-- Concrete item with a competitive contract method (kept by the filter). -/
def keepItem : XmlItem :=
  ⟨[("cntrctCnclsMthdNm", some "일반경쟁입찰")]⟩

/-- Concrete item whose contract method is exactly `수의계약` (dropped). -/
def dropExactItem : XmlItem :=
  ⟨[("cntrctCnclsMthdNm", some "수의계약")]⟩

/-- Concrete item whose contract method merely contains `수의계약` (dropped). -/
def dropSubItem : XmlItem :=
  ⟨[("cntrctCnclsMthdNm", some "수의계약(일부)")]⟩

/-- Concrete successful response used to evaluate batch statistics. -/
def statResp : XmlResponse :=
  ⟨some (some "00"), [keepItem, dropExactItem, dropSubItem]⟩

/-- Concrete item whose `bidNtceNo` text is a single space: non-empty in the
Python truthiness sense, so `get_text` strips it to the empty string. -/
def wsItem : XmlItem :=
  ⟨[("bidNtceNo", some " "), ("cntrctCnclsMthdNm", some "일반경쟁입찰")]⟩

/-- Response delivering only `wsItem`. -/
def wsResp : XmlResponse :=
  ⟨none, [wsItem]⟩

/-- Concrete well-formed item: proper announcement number, competitive
contract method, and a title. -/
def goodItem : XmlItem :=
  ⟨[("bidNtceNo", some "20250101-00001"),
    ("cntrctCnclsMthdNm", some "일반경쟁입찰"),
    ("bidNtceNm", some "테스트 공고")]⟩

/-- Successful response delivering only `goodItem`. -/
def goodResp : XmlResponse :=
  ⟨some (some "00"), [goodItem]⟩

/-- The record `goodItem` becomes after collection in the goods category. -/
def goodBid : CanonicalBid :=
  { makeBid "-" goodItem with sourceCategory := "물품" }

/-- Concrete item lacking any title child. -/
def noTitleItem : XmlItem :=
  ⟨[("bidNtceNo", some " 20250101-00001 ")]⟩

/-- Record with announcement number `X` and title `first` (earlier batch). -/
def bidA : CanonicalBid :=
  makeBid "-" ⟨[("bidNtceNo", some "X"), ("bidNtceNm", some "first")]⟩

/-- Record with announcement number `X` and title `second` (later batch). -/
def bidB : CanonicalBid :=
  makeBid "-" ⟨[("bidNtceNo", some "X"), ("bidNtceNm", some "second")]⟩
theorem processItems_len (now : String) (items : List XmlItem) :
    (processItems now items).1.length + (processItems now items).2 = items.length := by
  induction items with
  | nil => rfl
  | cons item rest ih =>
    cases h : strContains (get_text item "cntrctCnclsMthdNm") "수의계약" <;>
      simp [processItems, h] <;> omega

/-- C1: The filter keeps a record exactly when its `contractMethod` does
not contain the substring `수의계약`; concretely, `일반경쟁입찰` is kept while
`수의계약` and `수의계약(일부)` are both dropped. -/
theorem filter_substring_rule :
    (∀ (now : String) (item : XmlItem),
        (processItems now [item]).1 = [makeBid now item] ↔
          strContains (makeBid now item).contractMethod "수의계약" = false)
    ∧ processItems "-" [keepItem] = ([makeBid "-" keepItem], 0)
    ∧ processItems "-" [dropExactItem] = ([], 1)
    ∧ processItems "-" [dropSubItem] = ([], 1) := by
  refine ⟨?_, rfl, rfl, rfl⟩
  intro now item
  have hcm : (makeBid now item).contractMethod = get_text item "cntrctCnclsMthdNm" := rfl
  rw [hcm]
  cases h : strContains (get_text item "cntrctCnclsMthdNm") "수의계약" <;>
    simp [processItems, h]

/-- C4: Per-item conservation of the parsing loop: records produced plus
items counted as dropped equal the number of input items; no item vanishes
uncounted and no item aborts the rest of the batch. -/
theorem normalizer_conservation (now : String) (items : List XmlItem) :
    (processItems now items).1.length + (processItems now items).2 = items.length :=
  processItems_len now items

/-- C5: For a response that passes the result-code check, the kept count
plus the excluded count returned by `parse_xml_response` equals the number of
items handed to the filter, and the excluded count is the second component of
the returned pair. -/
theorem filter_batch_counts (now : String) (resp : XmlResponse)
    (h : resp.resultCode = none ∨ resp.resultCode = some (some "00")) :
    (parse_xml_response now resp).1.length + (parse_xml_response now resp).2
      = resp.items.length := by
  rcases h with h | h <;> simp [parse_xml_response, h] <;> exact processItems_len now resp.items

theorem filter_batch_counts_witness :
    (statResp.resultCode = none ∨ statResp.resultCode = some (some "00"))
    ∧ (parse_xml_response "-" statResp).1.length + (parse_xml_response "-" statResp).2
        = statResp.items.length :=
  ⟨Or.inr rfl, filter_batch_counts "-" statResp (Or.inr rfl)⟩
theorem dedupeGo_filter_of_seen (k : String) (l : List CanonicalBid) :
    ∀ seen : List String, seen.contains k = true →
      (dedupeGo seen l).filter (fun b => b.announcementId == k) = [] := by
  induction l with
  | nil => intro seen _; rfl
  | cons b rest ih =>
    intro seen h
    have hkmem : k ∈ seen := by simpa using h
    cases hb : seen.contains b.announcementId
    · have hbk : (b.announcementId == k) = false := by
        cases hk : b.announcementId == k
        · rfl
        · rw [eq_of_beq hk] at hb; rw [hb] at h; cases h
      simp only [dedupeGo, hb, Bool.false_eq_true, if_false]
      rw [List.filter_cons_of_neg (by simp [hbk])]
      exact ih _ (by simp [List.contains_cons]; exact Or.inr hkmem)
    · simp only [dedupeGo, hb, if_true]
      exact ih _ h

theorem dedupeGo_filter_of_not_seen (k : String) (l : List CanonicalBid) :
    ∀ seen : List String, seen.contains k = false →
      (dedupeGo seen l).filter (fun b => b.announcementId == k)
        = (l.filter (fun b => b.announcementId == k)).take 1 := by
  induction l with
  | nil => intro seen _; rfl
  | cons b rest ih =>
    intro seen h
    have hknot : k ∉ seen := by simpa using h
    cases hb : seen.contains b.announcementId
    · simp only [dedupeGo, hb, Bool.false_eq_true, if_false]
      cases hbk : b.announcementId == k
      · have h1 : ¬ k = b.announcementId := by
          intro he; rw [he] at hbk; simp at hbk
        rw [List.filter_cons_of_neg (by simp [hbk]),
          List.filter_cons_of_neg (by simp [hbk])]
        exact ih _ (by simp [List.contains_cons]; exact ⟨h1, hknot⟩)
      · rw [List.filter_cons_of_pos (by simp [hbk]),
          List.filter_cons_of_pos (by simp [hbk])]
        rw [dedupeGo_filter_of_seen k rest _
          (by simp [List.contains_cons]; exact Or.inl (eq_of_beq hbk).symm)]
        simp
    · have hbk : (b.announcementId == k) = false := by
        cases hk : b.announcementId == k
        · rfl
        · rw [eq_of_beq hk] at hb; rw [hb] at h; cases h
      simp only [dedupeGo, hb, if_true]
      rw [List.filter_cons_of_neg (by simp [hbk])]
      exact ih _ h
/-- C2: First-seen wins: when an announcement number occurs more than
once across the concatenated batches, the deduplicated output retains exactly
the first occurrence (batch order, then within-batch order) and discards
every later one, whatever the record contents. -/
theorem dedupe_first_seen (batches : List (List CanonicalBid)) (k : String)
    (h : 1 < (batches.flatten.filter (fun b => b.announcementId == k)).length) :
    (deduplicateBatches batches).filter (fun b => b.announcementId == k)
      = (batches.flatten.filter (fun b => b.announcementId == k)).take 1 :=
  dedupeGo_filter_of_not_seen k batches.flatten [] rfl

theorem dedupe_first_seen_witness :
    1 < (([[bidA], [bidB]] : List (List CanonicalBid)).flatten.filter
        (fun b => b.announcementId == "X")).length
    ∧ (deduplicateBatches [[bidA], [bidB]]).filter (fun b => b.announcementId == "X")
      = (([[bidA], [bidB]] : List (List CanonicalBid)).flatten.filter
          (fun b => b.announcementId == "X")).take 1
    ∧ (deduplicateBatches [[bidA], [bidB]]).map (fun b => b.title) = ["first"] :=
  ⟨by decide, dedupe_first_seen [[bidA], [bidB]] "X" (by decide), by decide⟩

theorem dedupeGo_not_seen_of_mem (l : List CanonicalBid) :
    ∀ seen : List String, ∀ b ∈ dedupeGo seen l, seen.contains b.announcementId = false := by
  induction l with
  | nil => intro seen b hb; cases hb
  | cons c rest ih =>
    intro seen b hb
    cases hc : seen.contains c.announcementId
    · simp only [dedupeGo, hc, Bool.false_eq_true, if_false] at hb
      cases hb with
      | head => exact hc
      | tail _ hb =>
        have := ih _ b hb
        simp only [List.contains_cons, Bool.or_eq_false_iff] at this
        simpa using this.2
    · simp only [dedupeGo, hc, if_true] at hb
      exact ih _ b hb

theorem dedupeGo_keys_nodup (l : List CanonicalBid) :
    ∀ seen : List String, ((dedupeGo seen l).map (fun b => b.announcementId)).Nodup := by
  induction l with
  | nil => intro seen; simp [dedupeGo]
  | cons c rest ih =>
    intro seen
    cases hc : seen.contains c.announcementId
    · simp only [dedupeGo, hc, Bool.false_eq_true, if_false, List.map_cons, List.nodup_cons]
      constructor
      · intro hmem
        rcases List.mem_map.mp hmem with ⟨d, hd, hkey⟩
        have := dedupeGo_not_seen_of_mem rest _ d hd
        rw [hkey] at this
        simp at this
      · exact ih _
    · simp only [dedupeGo, hc, if_true]
      exact ih _

theorem dedupeGo_length_le (l : List CanonicalBid) :
    ∀ seen : List String, (dedupeGo seen l).length ≤ l.length := by
  induction l with
  | nil => intro seen; exact Nat.le_refl 0
  | cons c rest ih =>
    intro seen
    cases hc : seen.contains c.announcementId
    · simp only [dedupeGo, hc, Bool.false_eq_true, if_false, List.length_cons]
      exact Nat.succ_le_succ (ih _)
    · simp only [dedupeGo, hc, if_true, List.length_cons]
      exact Nat.le_succ_of_le (ih _)

/-- C3: Deduplicator invariants: the output has pairwise-distinct
announcement numbers, its size is at most the sum of the batch sizes, and
every announcement number occurring in the input still occurs in the
output (exactly one record per distinct id). -/
theorem dedupe_invariants (batches : List (List CanonicalBid)) :
    ((deduplicateBatches batches).map (fun b => b.announcementId)).Nodup
    ∧ (deduplicateBatches batches).length ≤ (batches.map List.length).sum
    ∧ ∀ k : String, batches.flatten.filter (fun b => b.announcementId == k) ≠ [] →
        (deduplicateBatches batches).filter (fun b => b.announcementId == k) ≠ [] := by
  refine ⟨dedupeGo_keys_nodup batches.flatten [], ?_, ?_⟩
  · have h1 : (dedupeGo [] batches.flatten).length ≤ batches.flatten.length :=
      dedupeGo_length_le batches.flatten []
    simpa [deduplicateBatches, deduplicate] using h1
  · intro k hne
    rw [deduplicateBatches, deduplicate, dedupeGo_filter_of_not_seen k batches.flatten [] rfl]
    cases hf : batches.flatten.filter (fun b => b.announcementId == k)
    · exact absurd hf hne
    · simp

theorem dedupe_invariants_witness :
    ([[bidA], [bidB]] : List (List CanonicalBid)).flatten.filter
        (fun b => b.announcementId == "X") ≠ []
    ∧ (deduplicateBatches [[bidA], [bidB]]).filter (fun b => b.announcementId == "X") ≠ [] :=
  ⟨by decide, (dedupe_invariants [[bidA], [bidB]]).2.2 "X" (by decide)⟩
/-- C6: Field normalization: when the source child is present with
non-empty text the canonical field is that text stripped of surrounding
whitespace; when the child is absent, has no text, or has empty text, the
field is the placeholder `정보없음`; in particular a record lacking any
title child gets title `정보없음` (normalization is total — it never fails
on a missing field). -/
theorem normalizer_field_rule (now : String) (item : XmlItem) :
    (∀ tag t, findField item tag = some (some t) → t ≠ "" →
        get_text item tag = strStrip t)
    ∧ (∀ tag, (findField item tag = none ∨ findField item tag = some none
        ∨ findField item tag = some (some "")) → get_text item tag = "정보없음")
    ∧ (findField item "bidNtceNm" = none → (makeBid now item).title = "정보없음") := by
  refine ⟨?_, ?_, ?_⟩
  · intro tag t hf ht
    simp [get_text, hf, ht]
  · intro tag hf
    rcases hf with hf | hf | hf <;> simp [get_text, hf]
  · intro hf
    have : (makeBid now item).title = get_text item "bidNtceNm" := rfl
    rw [this]
    simp [get_text, hf]

theorem normalizer_field_rule_witness :
    get_text noTitleItem "bidNtceNo" = strStrip " 20250101-00001 "
    ∧ (makeBid "-" noTitleItem).title = "정보없음" :=
  ⟨(normalizer_field_rule "-" noTitleItem).1 "bidNtceNo" " 20250101-00001 " rfl
      (by decide),
   (normalizer_field_rule "-" noTitleItem).2.2 rfl⟩

/-- C7: Empty-result fallback: when the collection run over the four
fixed categories yields no records, `main`'s output is the fixed demo
dataset, which is non-empty and whose announcement ids all carry the
`DEMO-` placeholder prefix. -/
theorem empty_fallback (now : String) (og os oc of : AdapterOutcome)
    (h : (collect_all_bids now (categoryPairs og os oc of)).1 = []) :
    mainOutput now og os oc of = create_demo_data now
    ∧ create_demo_data now ≠ []
    ∧ ∀ b ∈ create_demo_data now, strStarts b.announcementId "DEMO-" = true := by
  refine ⟨?_, by simp [create_demo_data], ?_⟩
  · simp [mainOutput, h]
  · intro b hb
    simp only [create_demo_data, List.mem_cons, List.mem_singleton] at hb
    rcases hb with hb | hb | hb
    · rw [hb]; rfl
    · rw [hb]; rfl
    · cases hb

theorem empty_fallback_witness :
    (collect_all_bids "-" (categoryPairs AdapterOutcome.failure AdapterOutcome.failure
        AdapterOutcome.failure AdapterOutcome.failure)).1 = []
    ∧ (mainOutput "-" AdapterOutcome.failure AdapterOutcome.failure AdapterOutcome.failure
          AdapterOutcome.failure = create_demo_data "-"
      ∧ create_demo_data "-" ≠ []
      ∧ ∀ b ∈ create_demo_data "-", strStarts b.announcementId "DEMO-" = true) :=
  ⟨rfl, empty_fallback "-" AdapterOutcome.failure AdapterOutcome.failure AdapterOutcome.failure
    AdapterOutcome.failure rfl⟩
theorem collectCategories_failure_skip (now : String) (name : String)
    (post : List (String × AdapterOutcome)) :
    ∀ pre : List (String × AdapterOutcome),
      (collectCategories now (pre ++ (name, AdapterOutcome.failure) :: post)).1
        = (collectCategories now (pre ++ post)).1
      ∧ name ∈ (collectCategories now (pre ++ (name, AdapterOutcome.failure) :: post)).2 := by
  intro pre
  induction pre with
  | nil =>
    constructor
    · rfl
    · exact List.mem_cons_self name _
  | cons p rest ih =>
    obtain ⟨n, o⟩ := p
    cases o with
    | failure =>
      constructor
      · simp only [List.cons_append, collectCategories, List.append_eq]
        exact ih.1
      · simp only [List.cons_append, collectCategories, List.append_eq]
        exact List.mem_cons_of_mem n ih.2
    | success resp =>
      constructor
      · simp only [List.cons_append, collectCategories, List.append_eq]
        rw [ih.1]
      · simp only [List.cons_append, collectCategories, List.append_eq]
        exact ih.2

/-- C9: Per-category failure isolation: a category whose adapter call
fails is recorded in the failure log and contributes nothing — the final
deduplicated result of the run equals the result of processing only the
remaining categories, in order; no category failure aborts the run. -/
theorem category_failure_isolated (now : String) (pre post : List (String × AdapterOutcome))
    (name : String) :
    (collect_all_bids now (pre ++ (name, AdapterOutcome.failure) :: post)).1
      = (collect_all_bids now (pre ++ post)).1
    ∧ name ∈ (collect_all_bids now (pre ++ (name, AdapterOutcome.failure) :: post)).2 := by
  have h := collectCategories_failure_skip now name post pre
  constructor
  · show deduplicate (collectCategories now (pre ++ (name, AdapterOutcome.failure) :: post)).1
      = deduplicate (collectCategories now (pre ++ post)).1
    rw [h.1]
  · exact h.2
theorem mem_processItems (now : String) (items : List XmlItem) (b : CanonicalBid)
    (h : b ∈ (processItems now items).1) :
    ∃ item ∈ items, b = makeBid now item
      ∧ strContains (get_text item "cntrctCnclsMthdNm") "수의계약" = false := by
  induction items with
  | nil => cases h
  | cons item rest ih =>
    cases hc : strContains (get_text item "cntrctCnclsMthdNm") "수의계약"
    · simp only [processItems, hc, Bool.false_eq_true, if_false] at h
      cases h with
      | head => exact ⟨item, List.mem_cons_self item rest, rfl, hc⟩
      | tail _ h =>
        obtain ⟨it, hit, hb, hf⟩ := ih h
        exact ⟨it, List.mem_cons_of_mem item hit, hb, hf⟩
    · simp only [processItems, hc, if_true] at h
      obtain ⟨it, hit, hb, hf⟩ := ih h
      exact ⟨it, List.mem_cons_of_mem item hit, hb, hf⟩

theorem mem_parse_xml_response (now : String) (resp : XmlResponse) (b : CanonicalBid)
    (h : b ∈ (parse_xml_response now resp).1) :
    b ∈ (processItems now resp.items).1 := by
  cases hr : resp.resultCode with
  | none => simpa [parse_xml_response, hr] using h
  | some txt =>
    by_cases h00 : txt = some "00"
    · simpa [parse_xml_response, hr, h00] using h
    · simp [parse_xml_response, hr, h00] at h

theorem mem_collectCategories (now : String) (cats : List (String × AdapterOutcome))
    (b : CanonicalBid) (h : b ∈ (collectCategories now cats).1) :
    ∃ name resp item, (name, AdapterOutcome.success resp) ∈ cats ∧ item ∈ resp.items
      ∧ b = { makeBid now item with sourceCategory := name }
      ∧ strContains (get_text item "cntrctCnclsMthdNm") "수의계약" = false := by
  induction cats with
  | nil => cases h
  | cons p rest ih =>
    obtain ⟨name, o⟩ := p
    cases o with
    | failure =>
      have h2 : b ∈ (collectCategories now rest).1 := h
      obtain ⟨n, r, it, hmem, hit, hb, hf⟩ := ih h2
      exact ⟨n, r, it, List.mem_cons_of_mem _ hmem, hit, hb, hf⟩
    | success resp =>
      simp only [collectCategories] at h
      rw [List.mem_append] at h
      cases h with
      | inl h =>
        rw [List.mem_map] at h
        obtain ⟨c, hc, hbc⟩ := h
        obtain ⟨it, hit, hcb, hf⟩ :=
          mem_processItems now resp.items c (mem_parse_xml_response now resp c hc)
        refine ⟨name, resp, it, List.mem_cons_self _ _, hit, ?_, hf⟩
        rw [← hbc, hcb]
      | inr h =>
        obtain ⟨n, r, it, hmem, hit, hb, hf⟩ := ih h
        exact ⟨n, r, it, List.mem_cons_of_mem _ hmem, hit, hb, hf⟩

theorem mem_dedupeGo (l : List CanonicalBid) (b : CanonicalBid) :
    ∀ seen : List String, b ∈ dedupeGo seen l → b ∈ l := by
  induction l with
  | nil => intro seen h; cases h
  | cons c rest ih =>
    intro seen h
    cases hc : seen.contains c.announcementId
    · simp only [dedupeGo, hc, Bool.false_eq_true, if_false] at h
      cases h with
      | head => exact List.mem_cons_self _ _
      | tail _ h => exact List.mem_cons_of_mem _ (ih _ h)
    · simp only [dedupeGo, hc, if_true] at h
      exact List.mem_cons_of_mem c (ih _ h)

/-- C10: No record handed to the Sink — from the API path or the demo
fallback — has a `contractMethod` containing `수의계약`: the filter removes
such records on the API path, and the fixed demo records carry only
competitive contract methods. -/
theorem sink_no_negotiated (now : String) (og os oc of : AdapterOutcome) (b : CanonicalBid)
    (h : b ∈ mainOutput now og os oc of) :
    strContains b.contractMethod "수의계약" = false := by
  unfold mainOutput at h
  by_cases he : ((collect_all_bids now (categoryPairs og os oc of)).1).isEmpty
  · rw [if_pos he] at h
    simp only [create_demo_data, List.mem_cons, List.mem_singleton] at h
    rcases h with h | h | h
    · rw [h]; rfl
    · rw [h]; rfl
    · cases h
  · rw [if_neg he] at h
    have h2 : b ∈ (collectCategories now (categoryPairs og os oc of)).1 :=
      mem_dedupeGo _ b [] h
    obtain ⟨n, r, it, _, _, hb, hf⟩ := mem_collectCategories now _ b h2
    rw [hb]
    exact hf

theorem sink_no_negotiated_witness :
    goodBid ∈ mainOutput "-" (AdapterOutcome.success goodResp) AdapterOutcome.failure
        AdapterOutcome.failure AdapterOutcome.failure
    ∧ strContains goodBid.contractMethod "수의계약" = false := by
  have hmem : goodBid ∈ mainOutput "-" (AdapterOutcome.success goodResp) AdapterOutcome.failure
      AdapterOutcome.failure AdapterOutcome.failure := by decide
  exact ⟨hmem, sink_no_negotiated "-" _ _ _ _ goodBid hmem⟩
theorem get_text_id_ne_empty (item : XmlItem) (hws : wsOnlyId item = false) :
    get_text item "bidNtceNo" ≠ "" := by
  cases hf : findField item "bidNtceNo" with
  | none => simp only [get_text, hf]; decide
  | some t0 =>
    cases t0 with
    | none => simp only [get_text, hf]; decide
    | some t =>
      simp only [wsOnlyId, hf] at hws
      by_cases ht : t = ""
      · simp only [get_text, hf, ht, if_pos]; decide
      · have h1 : (t == "") = false := by
          cases he : t == ""
          · rfl
          · exact absurd (eq_of_beq he) ht
        rw [h1] at hws
        simp at hws
        simp only [get_text, hf, if_neg ht]
        exact hws

/-- C8 counterexample: A run whose only fetched item has `bidNtceNo`
text consisting of a single space produces a final output whose one record
has an empty `announcementId`: the claim that every record passing the
Filter into final output has a non-empty id fails on the code. -/
theorem announcement_id_empty_counterexample :
    (mainOutput "-" (AdapterOutcome.success wsResp) AdapterOutcome.failure AdapterOutcome.failure
        AdapterOutcome.failure).map (fun b => b.announcementId) = [""] := rfl

/-- C8 amended: Every record in the final output of a run has a
non-empty `announcementId`, provided no fetched item's `bidNtceNo` text is
non-empty but whitespace-only (absent or empty texts still produce the
non-empty placeholder; whitespace-only texts are stripped to the empty
string). -/
theorem announcement_id_nonempty (now : String) (og os oc of : AdapterOutcome)
    (h : ∀ name resp, (name, AdapterOutcome.success resp) ∈ categoryPairs og os oc of →
        ∀ item ∈ resp.items, wsOnlyId item = false) :
    ∀ b ∈ mainOutput now og os oc of, b.announcementId ≠ "" := by
  intro b hb
  unfold mainOutput at hb
  by_cases he : ((collect_all_bids now (categoryPairs og os oc of)).1).isEmpty
  · rw [if_pos he] at hb
    simp only [create_demo_data, List.mem_cons, List.mem_singleton] at hb
    rcases hb with hb | hb | hb
    · rw [hb]; exact (by decide : ("DEMO-2025-0001" : String) ≠ "")
    · rw [hb]; exact (by decide : ("DEMO-2025-0002" : String) ≠ "")
    · cases hb
  · rw [if_neg he] at hb
    have h2 : b ∈ (collectCategories now (categoryPairs og os oc of)).1 :=
      mem_dedupeGo _ b [] hb
    obtain ⟨n, r, it, hmem, hit, hbb, _⟩ := mem_collectCategories now _ b h2
    subst hbb
    exact get_text_id_ne_empty it (h n r hmem it hit)

theorem announcement_id_nonempty_witness :
    goodBid ∈ mainOutput "-" (AdapterOutcome.success goodResp) AdapterOutcome.failure
        AdapterOutcome.failure AdapterOutcome.failure
    ∧ goodBid.announcementId ≠ "" := by
  have hmem : goodBid ∈ mainOutput "-" (AdapterOutcome.success goodResp) AdapterOutcome.failure
      AdapterOutcome.failure AdapterOutcome.failure := by decide
  refine ⟨hmem, announcement_id_nonempty "-" _ _ _ _ ?_ goodBid hmem⟩
  intro name resp hp
  simp only [categoryPairs, List.mem_cons, List.mem_singleton, Prod.mk.injEq,
    AdapterOutcome.success.injEq, reduceCtorEq, and_false, or_false, false_or] at hp
  rcases hp with ⟨_, hr⟩ | hp
  · rw [hr]
    intro item hit
    simp only [goodResp, List.mem_singleton] at hit
    rw [hit]
    decide
  · cases hp
